import Mathlib

set_option maxRecDepth 10000

/-!
A verification development for the SIMD runtime in
`deps/v8/src/runtime/runtime-simd.cc` (node-v5.11.1).

The runtime implements 128-bit SIMD vector values (Float32x4, Int32x4,
Int16x8, Int8x16 and the boolean kinds Bool32x4, Bool16x8, Bool8x16)
together with lane-wise operations.  We embed the code shallowly:

* a `float` lane is its 32-bit pattern, a `Nat` below `2 ^ 32`; its IEEE-754
  semantics is recovered by `fdec`, which decodes a pattern to `none` for a
  NaN and otherwise to the value of the float measured in units of
  `2 ^ (-149)` (the smallest subnormal), with the infinities mapped to
  `± 2 ^ 23 * 2 ^ 254`, which dominates every finite magnitude, so that the
  IEEE comparisons `<` and `==` on non-NaN operands are exactly the integer
  comparisons of the decodings (both zeros decode to `0`);
* integer lanes are `Int` values, with two's-complement truncation made
  explicit through `wrapS`, and the signed-to-unsigned bit casts of the
  source made explicit through `toU`;
* fallible operations (the `RUNTIME_ASSERT` range and cast checks, which
  surface as RangeError) return `Option`, `none` meaning failure before any
  result vector is built;
* vectors are lists of lanes; the lane-count and lane-range invariants of
  well-formed vectors appear as hypotheses of the theorems.
-/

namespace SimdSpec

/-! ### IEEE-754 binary32 bit patterns -/

/-- Sign field of a binary32 bit pattern. -/
def signF (x : Nat) : Nat := x / 2 ^ 31 % 2

/-- Exponent field of a binary32 bit pattern. -/
def expF (x : Nat) : Nat := x / 2 ^ 23 % 2 ^ 8

/-- Mantissa (trailing significand) field of a binary32 bit pattern. -/
def manF (x : Nat) : Nat := x % 2 ^ 23

/-- Magnitude bits of a binary32 bit pattern: everything but the sign. -/
def magF (x : Nat) : Nat := x % 2 ^ 31

/-- The pattern is a NaN: exponent all ones, mantissa nonzero. -/
def isNaNF (x : Nat) : Bool := expF x == 255 && manF x != 0

/-- The pattern is finite (neither an infinity nor a NaN). -/
def isFiniteF (x : Nat) : Bool := expF x != 255

/-- The pattern is a zero (of either sign). -/
def isZeroF (x : Nat) : Bool := magF x == 0

/-- Value of a nonnegative binary32 pattern with magnitude bits `mag`, in
units of `2 ^ (-149)`: a subnormal `m` is worth `m`, a pattern with biased
exponent `E ≥ 1` and mantissa `m` is worth `(2 ^ 23 + m) * 2 ^ (E - 1)`;
the infinity pattern (`E = 255`, `m = 0`) receives `2 ^ 23 * 2 ^ 254`,
larger than every finite magnitude, which keeps comparisons faithful. -/
def posVal (mag : Nat) : Nat :=
  if mag < 2 ^ 23 then mag else (2 ^ 23 + mag % 2 ^ 23) * 2 ^ (mag / 2 ^ 23 - 1)

/-- Decode a binary32 pattern: `none` for NaN, otherwise the signed value in
units of `2 ^ (-149)` (with infinities beyond every finite value).  Both
zero patterns decode to `0`, so IEEE `==` and `<` on non-NaN floats are the
integer `=` and `<` of the decodings. -/
def fdec (x : Nat) : Option Int :=
  if isNaNF x then none
  else some ((if signF x = 1 then -1 else 1) * (posVal (magF x) : Int))

/-- The C++ comparison `a < b` on floats: false if either is NaN. -/
def fltLt (a b : Nat) : Bool :=
  match fdec a, fdec b with
  | some u, some v => u < v
  | _, _ => false

/-- The C++ comparison `a == b` on floats: false if either is NaN. -/
def fltEq (a b : Nat) : Bool :=
  match fdec a, fdec b with
  | some u, some v => u == v
  | _, _ => false

/-- The C++ `std::signbit` on a float pattern. -/
def signbitF (x : Nat) : Bool := signF x == 1

/-- Bit pattern of `std::numeric_limits<float>::quiet_NaN()`, the canonical
quiet NaN. -/
def quietNaNF : Nat := 0x7FC00000

/-- `Min` from runtime-simd.cc lines 84-89: `if (a < b) return a; if (a > b)
return b; if (a == b) return std::signbit(a) ? a : b;` and otherwise the
quiet NaN. -/
def Min (a b : Nat) : Nat :=
  if fltLt a b then a
  else if fltLt b a then b
  else if fltEq a b then (if signbitF a then a else b)
  else quietNaNF

/-- `Max` from runtime-simd.cc lines 92-97: `if (a > b) return a; if (a < b)
return b; if (a == b) return std::signbit(b) ? a : b;` and otherwise the
quiet NaN. -/
def Max (a b : Nat) : Nat :=
  if fltLt b a then a
  else if fltLt a b then b
  else if fltEq a b then (if signbitF b then a else b)
  else quietNaNF

/-! Basic facts about the float comparisons. -/

theorem fdec_eq_none_iff {a : Nat} : fdec a = none ↔ isNaNF a = true := by
  unfold fdec
  by_cases h : isNaNF a = true <;> simp [h]

theorem fltLt_asymm {a b : Nat} (h : fltLt a b = true) : fltLt b a = false := by
  unfold fltLt at *
  rcases ha : fdec a with _ | u <;> rcases hb : fdec b with _ | v <;>
    simp [ha, hb] at h ⊢
  omega

theorem fltLt_of_isNaN_left {a b : Nat} (h : isNaNF a = true) :
    fltLt a b = false := by
  unfold fltLt
  rw [fdec_eq_none_iff.mpr h]

theorem fltLt_of_isNaN_right {a b : Nat} (h : isNaNF b = true) :
    fltLt a b = false := by
  unfold fltLt
  rw [fdec_eq_none_iff.mpr h]
  rcases fdec a with _ | u <;> rfl

theorem fltEq_of_isNaN_left {a b : Nat} (h : isNaNF a = true) :
    fltEq a b = false := by
  unfold fltEq
  rw [fdec_eq_none_iff.mpr h]

theorem fltEq_of_isNaN_right {a b : Nat} (h : isNaNF b = true) :
    fltEq a b = false := by
  unfold fltEq
  rw [fdec_eq_none_iff.mpr h]
  rcases fdec a with _ | u <;> rfl

theorem fltLt_of_fltEq {a b : Nat} (h : fltEq a b = true) :
    fltLt a b = false ∧ fltLt b a = false := by
  unfold fltEq at h
  unfold fltLt
  rcases ha : fdec a with _ | u <;> rcases hb : fdec b with _ | v <;>
    simp [ha, hb] at h ⊢
  omega

/-- The claim C2: per-lane float `min` returns `a` when `a < b`, `b` when
`a > b`, breaks numeric ties toward the negative-signed operand (so
`min(+0, -0) = min(-0, +0) = -0`, pattern `2 ^ 31`), and `max`
symmetrically breaks ties toward the positive-signed operand (so
`max(+0, -0) = +0`), and both produce a NaN when either comparison operand
is NaN. -/
theorem claimC2_float_min_max (a b : Nat) :
    (fltLt a b = true → Min a b = a ∧ Max a b = b) ∧
    (fltLt b a = true → Min a b = b ∧ Max a b = a) ∧
    (fltEq a b = true → signbitF a ≠ signbitF b →
      Min a b = (if signbitF a then a else b) ∧
      Max a b = (if signbitF a then b else a)) ∧
    (Min 0 (2 ^ 31) = 2 ^ 31 ∧ Min (2 ^ 31) 0 = 2 ^ 31 ∧
      Max 0 (2 ^ 31) = 0 ∧ Max (2 ^ 31) 0 = 0) ∧
    ((isNaNF a = true ∨ isNaNF b = true) →
      isNaNF (Min a b) = true ∧ isNaNF (Max a b) = true) := by
  refine ⟨?_, ?_, ?_, by decide, ?_⟩
  · intro h
    rw [Min, Max, h, fltLt_asymm h]
    simp
  · intro h
    rw [Min, Max, h, fltLt_asymm h]
    simp
  · intro h hs
    obtain ⟨h1, h2⟩ := fltLt_of_fltEq h
    rw [Min, Max, h, h1, h2]
    rcases hb : signbitF b <;> rcases ha : signbitF a <;>
      simp_all
  · intro h
    have h1 : fltLt a b = false := by
      rcases h with h | h
      · exact fltLt_of_isNaN_left h
      · exact fltLt_of_isNaN_right h
    have h2 : fltLt b a = false := by
      rcases h with h | h
      · exact fltLt_of_isNaN_right h
      · exact fltLt_of_isNaN_left h
    have h3 : fltEq a b = false := by
      rcases h with h | h
      · exact fltEq_of_isNaN_left h
      · exact fltEq_of_isNaN_right h
    rw [Min, Max, h1, h2, h3]
    simp
    decide

/-- Witness for C2 at concrete inputs: the patterns of `1.0 = 0x3F800000`
and `2.0 = 0x40000000`, and the NaN pattern `0x7FC00001`. -/
theorem claimC2_float_min_max_witness :
    (Min 0x3F800000 0x40000000 = 0x3F800000 ∧
      Max 0x3F800000 0x40000000 = 0x40000000) ∧
    (isNaNF (Min 0x7FC00001 0x3F800000) = true ∧
      isNaNF (Max 0x7FC00001 0x3F800000) = true) :=
  ⟨(claimC2_float_min_max 0x3F800000 0x40000000).1 (by decide),
   (claimC2_float_min_max 0x7FC00001 0x3F800000).2.2.2.2 (Or.inl (by decide))⟩

/-- The claim C10: whenever either operand of the per-lane float `min` or
`max` is a NaN, the result is the canonical quiet NaN pattern
`0x7FC00000`; in particular the result never depends on the payload or
sign of an input NaN, so two results arising from different input NaN
payloads are bitwise-equal. -/
theorem claimC10_min_max_canonical_nan (a b : Nat)
    (h : isNaNF a = true ∨ isNaNF b = true) :
    Min a b = quietNaNF ∧ Max a b = quietNaNF ∧
    (∀ c d : Nat, isNaNF c = true ∨ isNaNF d = true →
      Min a b = Min c d ∧ Max a b = Max c d) := by
  have key : ∀ x y : Nat, isNaNF x = true ∨ isNaNF y = true →
      Min x y = quietNaNF ∧ Max x y = quietNaNF := by
    intro x y hxy
    have h1 : fltLt x y = false := by
      rcases hxy with h | h
      · exact fltLt_of_isNaN_left h
      · exact fltLt_of_isNaN_right h
    have h2 : fltLt y x = false := by
      rcases hxy with h | h
      · exact fltLt_of_isNaN_right h
      · exact fltLt_of_isNaN_left h
    have h3 : fltEq x y = false := by
      rcases hxy with h | h
      · exact fltEq_of_isNaN_left h
      · exact fltEq_of_isNaN_right h
    rw [Min, Max, h1, h2, h3]
    simp
  obtain ⟨k1, k2⟩ := key a b h
  refine ⟨k1, k2, fun c d hcd => ?_⟩
  obtain ⟨k3, k4⟩ := key c d hcd
  exact ⟨k1.trans k3.symm, k2.trans k4.symm⟩

/-- Witness for C10: two NaN patterns with different payloads and signs
both produce the canonical quiet NaN. -/
theorem claimC10_min_max_canonical_nan_witness :
    Min 0x7F800001 0 = quietNaNF ∧ Max 0x7F800001 0 = quietNaNF ∧
    (∀ c d : Nat, isNaNF c = true ∨ isNaNF d = true →
      Min 0x7F800001 0 = Min c d ∧ Max 0x7F800001 0 = Max c d) :=
  claimC10_min_max_canonical_nan 0x7F800001 0 (Or.inl (by decide))

/-! ### Two's-complement integer lanes -/

/-- Truncation of an integer to a signed two's-complement `w`-bit value,
the effect of `static_cast` to a `w`-bit signed lane type. -/
def wrapS (w : Nat) (x : Int) : Int := (x + 2 ^ (w - 1)) % 2 ^ w - 2 ^ (w - 1)

/-- Reinterpretation of a signed value as an unsigned `w`-bit value, the
`bit_cast` of the source (e.g. the signed shift argument to `uint32_t` in
`CONVERT_SHIFT_ARG_CHECKED`, lines 406-410). -/
def toU (w : Nat) (x : Int) : Nat := (x % 2 ^ w).toNat

theorem wrapS_eq_self {w : Nat} (hw : 1 ≤ w) {x : Int}
    (h1 : -2 ^ (w - 1) ≤ x) (h2 : x < 2 ^ (w - 1)) : wrapS w x = x := by
  obtain ⟨v, rfl⟩ : ∃ v, w = v + 1 := ⟨w - 1, by omega⟩
  simp only [Nat.add_sub_cancel] at h1 h2
  unfold wrapS
  simp only [Nat.add_sub_cancel]
  have hp : (2 : Int) ^ (v + 1) = 2 ^ v * 2 := by ring
  have hnn : (0 : Int) ≤ x + 2 ^ v := by omega
  have hlt : x + 2 ^ v < 2 ^ (v + 1) := by omega
  rw [Int.emod_eq_of_lt hnn hlt]
  omega

/-- `AddSaturate` from runtime-simd.cc lines 61-69, instantiated at the
`w`-bit signed lane types: the sum is computed in `int32_t` and clamped to
the lane range `[-2 ^ (w - 1), 2 ^ (w - 1) - 1]`. -/
def AddSaturate (w : Nat) (a b : Int) : Int :=
  let result := wrapS 32 (a + b)
  if result > 2 ^ (w - 1) - 1 then 2 ^ (w - 1) - 1
  else if result < -2 ^ (w - 1) then -2 ^ (w - 1)
  else result

/-- `SubSaturate` from runtime-simd.cc lines 73-81: the difference is
computed in `int32_t` and clamped to the lane range. -/
def SubSaturate (w : Nat) (a b : Int) : Int :=
  let result := wrapS 32 (a - b)
  if result > 2 ^ (w - 1) - 1 then 2 ^ (w - 1) - 1
  else if result < -2 ^ (w - 1) then -2 ^ (w - 1)
  else result

/-- The claim C8: for the 8-bit and 16-bit lane types, `addSaturate` is the
exact mathematical sum clamped to the lane range, and `subSaturate` the
exact difference clamped likewise — the `int32_t` intermediate never
wraps. -/
theorem claimC8_saturating_arithmetic (w : Nat) (a b : Int)
    (hw : w = 8 ∨ w = 16)
    (ha : -2 ^ (w - 1) ≤ a ∧ a < 2 ^ (w - 1))
    (hb : -2 ^ (w - 1) ≤ b ∧ b < 2 ^ (w - 1)) :
    AddSaturate w a b = max (-2 ^ (w - 1)) (min (2 ^ (w - 1) - 1) (a + b)) ∧
    SubSaturate w a b = max (-2 ^ (w - 1)) (min (2 ^ (w - 1) - 1) (a - b)) := by
  rcases hw with hw | hw <;> subst hw <;>
    · unfold AddSaturate SubSaturate wrapS
      norm_num at *
      constructor <;> (split_ifs <;> omega)

/-- Witness for C8: `addSaturate(int8 127, int8 1) = 127` and
`subSaturate(int8 -128, int8 1) = -128`. -/
theorem claimC8_saturating_arithmetic_witness :
    AddSaturate 8 127 1 = 127 ∧ SubSaturate 8 (-128) 1 = -128 := by
  have h1 := claimC8_saturating_arithmetic 8 127 1 (Or.inl rfl)
    (by norm_num) (by norm_num)
  have h2 := claimC8_saturating_arithmetic 8 (-128) 1 (Or.inl rfl)
    (by norm_num) (by norm_num)
  exact ⟨by rw [h1.1]; decide, by rw [h2.2]; decide⟩

/-! ### Shifts (SIMD_LSL_FUNCTION, SIMD_LSR_FUNCTION, SIMD_ASR_FUNCTION,
lines 412-466).  The shift argument is a signed 32-bit value reinterpreted
as an unsigned amount. -/

/-- `ShiftLeftByScalar` (lines 412-427): all lanes are zero-initialized and
are filled with the truncated left shifts only when the unsigned amount is
below the lane bit width. -/
def simdShiftLeft (w : Nat) (l : List Int) (sh : Int) : List Int :=
  let shift := toU 32 sh
  if shift < w then l.map (fun x => wrapS w (x * 2 ^ shift))
  else l.map (fun _ => 0)

/-- `ShiftRightLogicalByScalar` (lines 429-445): lanes are reinterpreted
unsigned, shifted, and cast back; all zero when the amount reaches the lane
bit width. -/
def simdShiftRightLogical (w : Nat) (l : List Int) (sh : Int) : List Int :=
  let shift := toU 32 sh
  if shift < w then l.map (fun x => wrapS w ((toU w x >>> shift : Nat) : Int))
  else l.map (fun _ => 0)

/-- `ShiftRightArithmeticByScalar` (lines 447-462): the amount is clamped
to `w - 1`, each lane is sign-extended to `int64_t`, arithmetically
shifted (a flooring division by `2 ^ shift`), and cast back. -/
def simdShiftRightArithmetic (w : Nat) (l : List Int) (sh : Int) : List Int :=
  let shift := if toU 32 sh ≥ w then w - 1 else toU 32 sh
  l.map (fun x => wrapS w (x / 2 ^ shift))

theorem neg_one_ediv {k : Int} (hk : 0 < k) : (-1 : Int) / k = -1 := by
  have h1 : (-1 : Int) = (k - 1) + k * (-1) := by ring
  nth_rewrite 1 [h1]
  rw [Int.add_mul_ediv_left _ _ (ne_of_gt hk),
    Int.ediv_eq_zero_of_lt (by omega) (by omega)]
  norm_num

theorem ediv_pow_range {w s : Nat} (_hw : 1 ≤ w) {x : Int}
    (h1 : -2 ^ (w - 1) ≤ x) (h2 : x < 2 ^ (w - 1)) :
    -2 ^ (w - 1) ≤ x / 2 ^ s ∧ x / 2 ^ s < 2 ^ (w - 1) := by
  have hs : (0 : Int) < 2 ^ s := by positivity
  have hs1 : (1 : Int) ≤ 2 ^ s := hs
  have hb : (0 : Int) < 2 ^ (w - 1) := by positivity
  constructor
  · rw [Int.le_ediv_iff_mul_le hs]
    nlinarith
  · rw [Int.ediv_lt_iff_lt_mul hs]
    nlinarith

/-- The claim C4: with the unsigned shift amount `s = toU 32 sh` (so a
negative argument becomes a large positive amount), `shiftLeft` and
`shiftRightLogical` return the all-zero vector when `s` reaches the lane
bit width and otherwise shift every lane by `s` (truncating to the lane
width, resp. reinterpreting the lane unsigned); `shiftRightArithmetic`
instead clamps `s` to `w - 1` and floors (sign-extends), so a vector of
`-1` lanes is unchanged by any amount. -/
theorem claimC4_shifts (w : Nat) (l : List Int) (sh : Int)
    (hw : w = 8 ∨ w = 16 ∨ w = 32)
    (hl : ∀ x ∈ l, -2 ^ (w - 1) ≤ x ∧ x < 2 ^ (w - 1))
    (hs : -2 ^ 31 ≤ sh ∧ sh < 2 ^ 31) :
    (sh < 0 → 2 ^ 31 ≤ toU 32 sh) ∧
    (w ≤ toU 32 sh →
      simdShiftLeft w l sh = List.replicate l.length 0 ∧
      simdShiftRightLogical w l sh = List.replicate l.length 0) ∧
    (toU 32 sh < w →
      simdShiftLeft w l sh = l.map (fun x => wrapS w (x * 2 ^ toU 32 sh)) ∧
      simdShiftRightLogical w l sh =
        l.map (fun x => wrapS w ((toU w x / 2 ^ toU 32 sh : Nat) : Int))) ∧
    (simdShiftRightArithmetic w l sh =
      l.map (fun x => x / 2 ^ min (toU 32 sh) (w - 1))) ∧
    ((∀ x ∈ l, x = -1) →
      simdShiftRightArithmetic w l sh = l.map (fun _ => (-1 : Int))) := by
  have hw1 : 1 ≤ w := by rcases hw with h | h | h <;> omega
  have hmin : (if toU 32 sh ≥ w then w - 1 else toU 32 sh)
      = min (toU 32 sh) (w - 1) := by
    split_ifs with h <;> omega
  refine ⟨?_, ?_, ?_, ?_, ?_⟩
  · intro hneg
    unfold toU
    have : sh % 2 ^ 32 = sh + 2 ^ 32 := by omega
    omega
  · intro h
    unfold simdShiftLeft simdShiftRightLogical
    rw [if_neg (by omega), if_neg (by omega)]
    constructor <;> (induction l with
      | nil => rfl
      | cons x xs ih => simp_all [List.replicate_succ])
  · intro h
    unfold simdShiftLeft simdShiftRightLogical
    rw [if_pos h, if_pos h]
    refine ⟨rfl, ?_⟩
    apply List.map_congr_left
    intro x _
    rw [Nat.shiftRight_eq_div_pow]
  · unfold simdShiftRightArithmetic
    rw [hmin]
    apply List.map_congr_left
    intro x hx
    exact wrapS_eq_self hw1 (ediv_pow_range hw1 (hl x hx).1 (hl x hx).2).1
      (ediv_pow_range hw1 (hl x hx).1 (hl x hx).2).2
  · intro hone
    unfold simdShiftRightArithmetic
    apply List.map_congr_left
    intro x hx
    rw [hone x hx, neg_one_ediv (by positivity)]
    have hb : (0 : Int) < 2 ^ (w - 1) := by positivity
    exact wrapS_eq_self hw1 (by omega) (by omega)

/-- Witness for C4: lane width 32, a negative shift argument of `-4`
becomes the amount `4294967292 ≥ 32` and zeroes a shiftLeft, while an
arithmetic shift by `100` leaves the all `-1` vector unchanged. -/
theorem claimC4_shifts_witness :
    ((-4 : Int) < 0 → 2 ^ 31 ≤ toU 32 (-4)) ∧
    (32 ≤ toU 32 (-4) →
      simdShiftLeft 32 [-1, -1, -1, -1] (-4) = List.replicate 4 0 ∧
      simdShiftRightLogical 32 [-1, -1, -1, -1] (-4) = List.replicate 4 0) ∧
    (simdShiftRightArithmetic 32 [-1, -1, -1, -1] 100 =
      List.map (fun _ => (-1 : Int)) [-1, -1, -1, -1]) := by
  have h1 := claimC4_shifts 32 [-1, -1, -1, -1] (-4) (by omega)
    (by decide) (by constructor <;> decide)
  have h2 := claimC4_shifts 32 [-1, -1, -1, -1] 100 (by omega)
    (by decide) (by constructor <;> decide)
  exact ⟨h1.1, fun h => (h1.2.1 h), h2.2.2.2.2 (by decide)⟩

/-! ### The 128-bit representation: lanes as base `2 ^ w` digits -/

/-- Combine a little-endian list of `w`-bit lanes into the number whose
base `2 ^ w` digits they are: the raw bits of the 128-bit register. -/
def combineBits (w : Nat) : List Nat → Nat
  | [] => 0
  | x :: xs => x + combineBits w xs * 2 ^ w

/-- Split a number into `c` little-endian `w`-bit lanes. -/
def splitBits (w c : Nat) (n : Nat) : List Nat :=
  match c with
  | 0 => []
  | c + 1 => n % 2 ^ w :: splitBits w c (n / 2 ^ w)

theorem splitBits_length (w c n : Nat) : (splitBits w c n).length = c := by
  induction c generalizing n with
  | zero => rfl
  | succ c ih => simp [splitBits, ih]

theorem splitBits_bounds (w c n : Nat) :
    ∀ x ∈ splitBits w c n, x < 2 ^ w := by
  induction c generalizing n with
  | zero => simp [splitBits]
  | succ c ih =>
    simp only [splitBits, List.mem_cons]
    rintro x (rfl | hx)
    · exact Nat.mod_lt _ (by positivity)
    · exact ih _ x hx

theorem splitBits_combineBits (w : Nat) (l : List Nat)
    (h : ∀ x ∈ l, x < 2 ^ w) :
    splitBits w l.length (combineBits w l) = l := by
  induction l with
  | nil => rfl
  | cons x xs ih =>
    have hx : x < 2 ^ w := h x (by simp)
    have hmod : (x + combineBits w xs * 2 ^ w) % 2 ^ w = x := by
      rw [Nat.add_mul_mod_self_right, Nat.mod_eq_of_lt hx]
    have hdiv : (x + combineBits w xs * 2 ^ w) / 2 ^ w = combineBits w xs := by
      rw [Nat.add_mul_div_right _ _ (by positivity), Nat.div_eq_of_lt hx]
      omega
    simp only [List.length_cons, splitBits, combineBits, hmod, hdiv]
    rw [ih (fun y hy => h y (by simp [hy]))]

theorem combineBits_lt (w : Nat) (l : List Nat) (h : ∀ x ∈ l, x < 2 ^ w) :
    combineBits w l < 2 ^ (w * l.length) := by
  induction l with
  | nil => simp [combineBits]
  | cons x xs ih =>
    have hx : x < 2 ^ w := h x (by simp)
    have hxs : combineBits w xs < 2 ^ (w * xs.length) :=
      ih (fun y hy => h y (by simp [hy]))
    simp only [combineBits, List.length_cons]
    have hdist : (combineBits w xs + 1) * 2 ^ w
        = combineBits w xs * 2 ^ w + 2 ^ w := by ring
    have h1 : x + combineBits w xs * 2 ^ w
        < (combineBits w xs + 1) * 2 ^ w := by omega
    have h2 : (combineBits w xs + 1) * 2 ^ w
        ≤ 2 ^ (w * xs.length) * 2 ^ w :=
      Nat.mul_le_mul_right _ (Nat.succ_le_of_lt hxs)
    have h3 : 2 ^ (w * xs.length) * 2 ^ w = 2 ^ (w * (xs.length + 1)) := by
      rw [← pow_add]
      ring_nf
    omega

theorem combineBits_splitBits (w c n : Nat) (h : n < 2 ^ (w * c)) :
    combineBits w (splitBits w c n) = n := by
  induction c generalizing n with
  | zero =>
    simp only [Nat.mul_zero, pow_zero, Nat.lt_one_iff] at h
    simp [splitBits, combineBits, h]
  | succ c ih =>
    have h2 : (0 : Nat) < 2 ^ w := by positivity
    have hdiv : n / 2 ^ w < 2 ^ (w * c) := by
      apply Nat.div_lt_of_lt_mul
      calc n < 2 ^ (w * (c + 1)) := h
        _ = 2 ^ w * 2 ^ (w * c) := by rw [← pow_add]; ring_nf
    simp only [splitBits, combineBits, ih _ hdiv]
    rw [Nat.add_comm, Nat.mul_comm, Nat.div_add_mod]

/-! ### Numeric vector kinds and the bit-reinterpreting casts
(SIMD_FROM_BITS_FUNCTION, lines 785-797, instantiated for the twelve
ordered pairs of distinct numeric kinds in SIMD_FROM_BITS_TYPES). -/

/-- The four numeric vector kinds, between which `fromXBits` is defined. -/
inductive NumKind where
  | float32x4
  | int32x4
  | int16x8
  | int8x16
deriving DecidableEq

/-- Bit width of one lane of a numeric kind. -/
def laneBits : NumKind → Nat
  | .float32x4 => 32
  | .int32x4 => 32
  | .int16x8 => 16
  | .int8x16 => 8

/-- Lane count of a numeric kind. -/
def laneCount : NumKind → Nat
  | .float32x4 => 4
  | .int32x4 => 4
  | .int16x8 => 8
  | .int8x16 => 16

theorem laneBits_mul_laneCount (k : NumKind) : laneBits k * laneCount k = 128 := by
  cases k <;> rfl

/-- Modelled from the spec: `Simd128Value::CopyBits` (called by
SIMD_FROM_BITS_FUNCTION but defined outside this file) copies the raw
128-bit pattern with no value transformation, so the cast from kind `src`
to kind `dst` reads the source lanes' bits as `dst`-kind lanes. -/
def fromBits (src dst : NumKind) (l : List Nat) : List Nat :=
  splitBits (laneBits dst) (laneCount dst) (combineBits (laneBits src) l)

/-- The claim C6: `fromXBits` between two distinct numeric kinds never
fails (it is total, and always yields a well-formed vector of the
destination kind), and reinterpreting from kind `X` to kind `Y` and back
to `X` restores the original vector bit for bit. -/
theorem claimC6_frombits_roundtrip (X Y : NumKind) (l : List Nat)
    (_hxy : X ≠ Y) (hlen : l.length = laneCount X)
    (hbound : ∀ x ∈ l, x < 2 ^ laneBits X) :
    fromBits Y X (fromBits X Y l) = l ∧
    (fromBits X Y l).length = laneCount Y ∧
    (∀ x ∈ fromBits X Y l, x < 2 ^ laneBits Y) := by
  have h128 : combineBits (laneBits X) l < 2 ^ 128 := by
    have h := combineBits_lt (laneBits X) l hbound
    rw [hlen, laneBits_mul_laneCount] at h
    exact h
  refine ⟨?_, splitBits_length _ _ _, splitBits_bounds _ _ _⟩
  unfold fromBits
  rw [combineBits_splitBits (laneBits Y) (laneCount Y) _
      (by rw [laneBits_mul_laneCount]; exact h128),
    ← hlen, splitBits_combineBits (laneBits X) l hbound]

/-- Witness for C6: an Int32x4 vector reinterpreted as Int8x16 and back is
restored, and the intermediate is a well-formed Int8x16 vector. -/
theorem claimC6_frombits_roundtrip_witness :
    fromBits NumKind.int8x16 NumKind.int32x4
        (fromBits NumKind.int32x4 NumKind.int8x16 [1, 2, 3, 4294967295]) =
      [1, 2, 3, 4294967295] ∧
    (fromBits NumKind.int32x4 NumKind.int8x16 [1, 2, 3, 4294967295]).length =
      laneCount NumKind.int8x16 ∧
    (∀ x ∈ fromBits NumKind.int32x4 NumKind.int8x16 [1, 2, 3, 4294967295],
      x < 2 ^ laneBits NumKind.int8x16) :=
  claimC6_frombits_roundtrip NumKind.int32x4 NumKind.int8x16
    [1, 2, 3, 4294967295] (by decide) (by decide) (by decide)

/-! ### Lane access and permutation -/

/-- `CONVERT_SIMD_LANE_ARG_CHECKED` (lines 196-198): the int32 index
argument must satisfy `0 <= index < lanes`, otherwise the operation fails
with RangeError before any result is built. -/
def laneChecked (i : Int) (lanes : Nat) : Option Nat :=
  if 0 ≤ i ∧ i < lanes then some i.toNat else none

/-- SIMD_EXTRACT_FUNCTION (lines 264-271): range-check the index, then
return the lane. -/
def extractLane {α : Type} (v : List α) (i : Int) : Option α :=
  match laneChecked i v.length with
  | some j => v[j]?
  | none => none

/-- SIMD_REPLACE_FUNCTION (lines 273-287): range-check the index, copy the
lanes, overwrite the chosen lane with the converted scalar (`conv` is the
per-kind conversion that GET_NUMERIC_ARG or GET_BOOLEAN_ARG applies to the
incoming scalar, the same one `create` uses), and build the result. -/
def replaceLane {α τ : Type} (conv : τ → α) (v : List α) (i : Int) (x : τ) :
    Option (List α) :=
  match laneChecked i v.length with
  | some j => some (v.set j (conv x))
  | none => none

/-- The lane-building loop shared by swizzle, shuffle and the numeric
casts: the whole operation fails at the first lane whose check fails, with
no partial result. -/
def mapChecked {α β : Type} (f : α → Option β) : List α → Option (List β)
  | [] => some []
  | a :: l =>
    match f a with
    | some b => (mapChecked f l).map (b :: ·)
    | none => none

/-- SIMD_SWIZZLE_FUNCTION (lines 296-309): output lane `i` is input lane
`indices[i]`, each index range-checked against the lane count. -/
def swizzle {α : Type} (v : List α) (idxs : List Int) : Option (List α) :=
  mapChecked (fun i => extractLane v i) idxs

/-- SIMD_SHUFFLE_FUNCTION (lines 311-326): each index is range-checked
against twice the lane count; indices below the lane count select from
`a`, the rest from `b`. -/
def shuffle {α : Type} (a b : List α) (idxs : List Int) : Option (List α) :=
  mapChecked (fun i =>
    match laneChecked i (a.length * 2) with
    | some j => if j < a.length then a[j]? else b[j - a.length]?
    | none => none) idxs

theorem isSome_getElem_iff {α : Type} (l : List α) (n : Nat) :
    (l[n]?).isSome = true ↔ n < l.length := by
  constructor
  · intro h
    by_contra hlt
    rw [List.getElem?_eq_none (by omega)] at h
    simp at h
  · intro h
    rw [List.getElem?_eq_getElem h]
    rfl

theorem isSome_mapChecked {α β : Type} (f : α → Option β) (l : List α) :
    (mapChecked f l).isSome = true ↔ ∀ a ∈ l, (f a).isSome = true := by
  induction l with
  | nil => simp [mapChecked]
  | cons a l ih =>
    rcases hfa : f a with _ | b
    · simp only [mapChecked, hfa]
      constructor
      · intro h
        simp at h
      · intro h
        have h2 := h a (List.mem_cons_self a l)
        rw [hfa] at h2
        simp at h2
    · simp only [mapChecked, hfa]
      have hmap : (Option.map (fun x => b :: x) (mapChecked f l)).isSome
          = (mapChecked f l).isSome := by
        cases mapChecked f l <;> rfl
      rw [hmap, ih]
      constructor
      · intro h x hx
        rcases List.mem_cons.mp hx with rfl | hx2
        · rw [hfa]; rfl
        · exact h x hx2
      · intro h x hx
        exact h x (List.mem_cons_of_mem a hx)

theorem isSome_extractLane {α : Type} (v : List α) (i : Int) :
    (extractLane v i).isSome = true ↔ 0 ≤ i ∧ i < v.length := by
  unfold extractLane laneChecked
  split_ifs with h
  · simp only [h, and_true, iff_true]
    rw [isSome_getElem_iff]
    omega
  · simpa using h

/-- The claim C5: a successful `replaceLane` returns a vector of the same
lane count whose named lane holds the per-kind conversion of the incoming
scalar, and whose every other lane is identical to the input vector. -/
theorem claimC5_replace_frame {α τ : Type} (conv : τ → α) (v : List α)
    (i : Int) (x : τ) (h0 : 0 ≤ i) (h1 : i < v.length) :
    ∃ v2, replaceLane conv v i x = some v2 ∧
      v2.length = v.length ∧
      extractLane v2 i = some (conv x) ∧
      ∀ j : Int, 0 ≤ j → j < v.length → j ≠ i →
        extractLane v2 j = extractLane v j := by
  have hiN : i.toNat < v.length := by omega
  refine ⟨v.set i.toNat (conv x), ?_, ?_, ?_, ?_⟩
  · unfold replaceLane laneChecked
    rw [if_pos ⟨h0, h1⟩]
  · exact List.length_set v i.toNat (conv x)
  · unfold extractLane laneChecked
    rw [List.length_set, if_pos ⟨h0, h1⟩]
    exact List.getElem?_set_self (by omega)
  · intro j hj0 hj1 hne
    unfold extractLane laneChecked
    rw [List.length_set, if_pos ⟨hj0, hj1⟩]
    show (v.set i.toNat (conv x))[j.toNat]? = v[j.toNat]?
    exact List.getElem?_set_ne (by omega)

/-- Witness for C5: replacing lane 2 of `[10, 20, 30, 40]` by the
(identity-converted) value 7. -/
theorem claimC5_replace_frame_witness :
    ∃ v2, replaceLane (fun x : Int => x) [10, 20, 30, 40] 2 7 = some v2 ∧
      v2.length = ([10, 20, 30, 40] : List Int).length ∧
      extractLane v2 2 = some 7 ∧
      ∀ j : Int, 0 ≤ j → j < ([10, 20, 30, 40] : List Int).length → j ≠ 2 →
        extractLane v2 j = extractLane [10, 20, 30, 40] j :=
  claimC5_replace_frame (fun x : Int => x) [10, 20, 30, 40] 2 7
    (by decide) (by decide)

/-- The claim C7: extractLane, replaceLane and swizzle fail (returning no
result) exactly when some index argument leaves `[0, laneCount)`, and
shuffle exactly when some index leaves `[0, 2 * laneCount)`; a failing
index is never wrapped into range. -/
theorem claimC7_index_range_checks {α τ : Type} (conv : τ → α)
    (v a b : List α) (i : Int) (y : τ) (ss fs : List Int)
    (hb : b.length = a.length)
    (_hss : ss.length = v.length) (_hfs : fs.length = a.length) :
    ((extractLane v i).isSome = true ↔ 0 ≤ i ∧ i < v.length) ∧
    ((replaceLane conv v i y).isSome = true ↔ 0 ≤ i ∧ i < v.length) ∧
    ((swizzle v ss).isSome = true ↔ ∀ j ∈ ss, 0 ≤ j ∧ j < v.length) ∧
    ((shuffle a b fs).isSome = true ↔ ∀ j ∈ fs, 0 ≤ j ∧ j < 2 * a.length) := by
  refine ⟨isSome_extractLane v i, ?_, ?_, ?_⟩
  · unfold replaceLane laneChecked
    split_ifs with h
    · simpa using h
    · simpa using h
  · unfold swizzle
    rw [isSome_mapChecked]
    constructor
    · intro h j hj
      exact (isSome_extractLane v j).mp (h j hj)
    · intro h j hj
      exact (isSome_extractLane v j).mpr (h j hj)
  · unfold shuffle
    rw [isSome_mapChecked]
    have key : ∀ j : Int,
        ((match laneChecked j (a.length * 2) with
          | some k => if k < a.length then a[k]? else b[k - a.length]?
          | none => none).isSome = true) ↔ (0 ≤ j ∧ j < 2 * a.length) := by
      intro j
      unfold laneChecked
      split_ifs with h
      · simp only
        split_ifs with h2
        · rw [isSome_getElem_iff]
          omega
        · rw [isSome_getElem_iff, hb]
          omega
      · simp only [Option.isSome_none]
        constructor
        · intro hh
          simp at hh
        · intro hh
          exfalso
          apply h
          omega
    constructor
    · intro h j hj
      exact (key j).mp (h j hj)
    · intro h j hj
      exact (key j).mpr (h j hj)

/-- Witness for C7 at concrete vectors: index 3 is in range for a 4-lane
vector, swizzle indices `[0, 3, 3, 0]` are all in range, and shuffle
indices up to 7 are in range for the doubled index space. -/
theorem claimC7_index_range_checks_witness :
    ((extractLane ([1, 2, 3, 4] : List Int) 3).isSome = true ↔
      0 ≤ (3 : Int) ∧ (3 : Int) < ([1, 2, 3, 4] : List Int).length) ∧
    ((replaceLane (fun x : Int => x) [1, 2, 3, 4] 3 9).isSome = true ↔
      0 ≤ (3 : Int) ∧ (3 : Int) < ([1, 2, 3, 4] : List Int).length) ∧
    ((swizzle ([1, 2, 3, 4] : List Int) [0, 3, 3, 0]).isSome = true ↔
      ∀ j ∈ ([0, 3, 3, 0] : List Int), 0 ≤ j ∧ j < ([1, 2, 3, 4] : List Int).length) ∧
    ((shuffle ([1, 2, 3, 4] : List Int) [5, 6, 7, 8] [0, 4, 3, 7]).isSome = true ↔
      ∀ j ∈ ([0, 4, 3, 7] : List Int), 0 ≤ j ∧ j < 2 * ([1, 2, 3, 4] : List Int).length) :=
  claimC7_index_range_checks (fun x : Int => x) [1, 2, 3, 4] [1, 2, 3, 4]
    [5, 6, 7, 8] 3 9 [0, 3, 3, 0] [0, 4, 3, 7] (by decide) (by decide) (by decide)

/-! ### Value-preserving numeric casts (CanCast, lines 114-120, and
SIMD_FROM_FUNCTION, lines 753-769) -/

/-- `CanCast(int32_t)` (line 114): always true. -/
def CanCastI32 (_ : Int) : Bool := true

/-- Bit pattern of `(float)std::numeric_limits<int32_t>::min()`: the value
`-2 ^ 31`, exactly representable. -/
def f32IntMin : Nat := 0xCF000000

/-- Bit pattern of `(float)std::numeric_limits<int32_t>::max()`: the value
`2 ^ 31 - 1` is not representable in binary32 and rounds to `2 ^ 31`. -/
def f32IntMax : Nat := 0x4F000000

/-- `CanCast(float)` (lines 117-120): `a > (float)INT32_MIN && a <
(float)INT32_MAX`, the integer limits being converted to float by the
usual arithmetic conversions. -/
def CanCastF32 (a : Nat) : Bool := fltLt f32IntMin a && fltLt a f32IntMax

/-- Truncation of a float toward zero, the `static_cast<int32_t>` applied
to a lane that passed `CanCast`. -/
def f32ToInt32 (a : Nat) : Int :=
  (if signF a = 1 then -1 else 1) * ((posVal (magF a) / 2 ^ 149 : Nat) : Int)

/-- Bit pattern of the binary32 nearest to the positive integer `n`
(ties to even), for `static_cast<float>(int32_t)`. -/
def encodeF32pos (n : Nat) : Nat :=
  let L := Nat.log2 n
  if L ≤ 23 then (L + 127) * 2 ^ 23 + (n * 2 ^ (23 - L) - 2 ^ 23)
  else
    let k := L - 23
    let q := n / 2 ^ k
    let r := n % 2 ^ k
    let m := if 2 ^ (k - 1) < r then q + 1
      else if r < 2 ^ (k - 1) then q
      else if q % 2 = 0 then q else q + 1
    if m = 2 ^ 24 then (L + 128) * 2 ^ 23 else (L + 127) * 2 ^ 23 + (m - 2 ^ 23)

/-- `static_cast<float>` of an int32 value (round to nearest, ties to
even; every int32 magnitude is far below the binary32 overflow
threshold). -/
def intToF32 (a : Int) : Nat :=
  if a = 0 then 0
  else if a < 0 then 2 ^ 31 + encodeF32pos (-a).toNat
  else encodeF32pos a.toNat

/-- `Int32x4FromFloat32x4` (SIMD_FROM_FUNCTION, lines 753-767): every lane
is checked with `CanCast` — a failing lane raises RangeError for the whole
operation, before any result vector exists — and then converted by
truncation. -/
def int32x4FromFloat32x4 (l : List Nat) : Option (List Int) :=
  mapChecked (fun a => if CanCastF32 a then some (f32ToInt32 a) else none) l

/-- `Float32x4FromInt32x4` (SIMD_FROM_FUNCTION): `CanCast` on an int32
lane always passes, then the lane converts to float. -/
def float32x4FromInt32x4 (l : List Int) : Option (List Nat) :=
  mapChecked (fun a => if CanCastI32 a then some (intToF32 a) else none) l

theorem expF_eq_magF_div (x : Nat) : expF x = magF x / 2 ^ 23 := by
  unfold expF magF
  omega

theorem magF_decomp (x : Nat) : magF x = expF x * 2 ^ 23 + manF x := by
  unfold expF magF manF
  omega

theorem fdec_eq_some {a : Nat} {v : Int} (h : fdec a = some v) :
    isNaNF a = false ∧
    v = (if signF a = 1 then -1 else 1) * posVal (magF a) := by
  by_cases hnan : isNaNF a = true
  · rw [fdec_eq_none_iff.mpr hnan] at h
    cases h
  · have hf : isNaNF a = false := by simpa using hnan
    unfold fdec at h
    rw [if_neg hnan] at h
    injection h with h2
    exact ⟨hf, h2.symm⟩

/-- In the range left open by `CanCast` there is no representable float
between `2 ^ 31 - 1` and `2 ^ 31`: a nonnegative float magnitude below
`2 ^ 31` (in units of `2 ^ (-149)`, i.e. below `2 ^ 180`) is in fact
below `(2 ^ 31 - 1) * 2 ^ 149`. -/
theorem posVal_gap {mag : Nat} (h : posVal mag < 2 ^ 180) :
    posVal mag < 2147483647 * 2 ^ 149 := by
  unfold posVal at h ⊢
  split_ifs at h ⊢ with hs
  · calc mag < 2 ^ 23 := hs
      _ < 2147483647 * 2 ^ 149 := by norm_num
  · set E := mag / 2 ^ 23 with hE
    set m := mag % 2 ^ 23 with hm
    have hm23 : m < 2 ^ 23 := by omega
    by_cases hcase : E ≤ 157
    · have h1 : 2 ^ 23 + m ≤ 2 ^ 24 - 1 := by omega
      have h2 : (2 : Nat) ^ (E - 1) ≤ 2 ^ 156 :=
        Nat.pow_le_pow_right (by norm_num) (by omega)
      calc (2 ^ 23 + m) * 2 ^ (E - 1) ≤ (2 ^ 24 - 1) * 2 ^ 156 :=
            Nat.mul_le_mul h1 h2
        _ < 2147483647 * 2 ^ 149 := by norm_num
    · exfalso
      have h1 : (2 : Nat) ^ 23 ≤ 2 ^ 23 + m := Nat.le_add_right _ _
      have h2 : (2 : Nat) ^ 157 ≤ 2 ^ (E - 1) :=
        Nat.pow_le_pow_right (by norm_num) (by omega)
      have h3 : (2 : Nat) ^ 180 ≤ (2 ^ 23 + m) * 2 ^ (E - 1) := by
        calc (2 : Nat) ^ 180 = 2 ^ 23 * 2 ^ 157 := by norm_num
          _ ≤ (2 ^ 23 + m) * 2 ^ (E - 1) := Nat.mul_le_mul h1 h2
      omega

/-- Per-lane characterization of `CanCast(float)`: it passes exactly for
the finite floats whose value lies strictly between the int32 minimum
`-2 ^ 31` and the int32 maximum `2 ^ 31 - 1` (values in units of
`2 ^ (-149)`; NaN and the infinities fail). -/
theorem canCastF32_iff (a : Nat) :
    CanCastF32 a = true ↔
    (isFiniteF a = true ∧ ∃ v, fdec a = some v ∧
      -(2147483648 * 2 ^ 149) < v ∧ v < 2147483647 * 2 ^ 149) := by
  have hmin : fdec f32IntMin = some (-(2 ^ 180)) := by decide
  have hmax : fdec f32IntMax = some (2 ^ 180) := by decide
  have hb : (2147483648 * 2 ^ 149 : Int) = 2 ^ 180 := by norm_num
  have hb2 : (2147483647 * 2 ^ 149 : Int) < 2 ^ 180 := by norm_num
  unfold CanCastF32 fltLt
  rw [hmin, hmax]
  rcases ha : fdec a with _ | v
  · simp only [Bool.and_eq_true]
    constructor
    · rintro ⟨h1, _⟩
      exact absurd h1 (by decide)
    · rintro ⟨_, w, hw, _⟩
      cases hw
  · obtain ⟨hnan, hval⟩ := fdec_eq_some ha
    simp only [Bool.and_eq_true, decide_eq_true_eq]
    rcases hfin : isFiniteF a with _ | _
    · -- infinity: exponent 255, mantissa 0
      have hexp : expF a = 255 := by
        unfold isFiniteF at hfin
        simpa using hfin
      have hman : manF a = 0 := by
        unfold isNaNF at hnan
        simp [hexp] at hnan
        exact hnan
      have hmag : magF a = 255 * 2 ^ 23 := by
        rw [magF_decomp, hexp, hman]
        ring
      have hpv : (2 : Nat) ^ 180 ≤ posVal (255 * 2 ^ 23) := by
        have hcalc : posVal (255 * 2 ^ 23) = (2 ^ 23 + 0) * 2 ^ 254 := by
          unfold posVal
          norm_num
        rw [hcalc]
        calc (2 : Nat) ^ 180 ≤ 2 ^ 254 :=
              Nat.pow_le_pow_right (by norm_num) (by norm_num)
          _ ≤ (2 ^ 23 + 0) * 2 ^ 254 := Nat.le_mul_of_pos_left _ (by positivity)
      rw [hmag] at hval
      have hcast : (2 : Int) ^ 180 ≤ (posVal (255 * 2 ^ 23) : Int) := by
        exact_mod_cast hpv
      constructor
      · rintro ⟨hc1, hc2⟩
        by_cases hsg : signF a = 1
        · rw [if_pos hsg] at hval
          rw [hval] at hc1
          exfalso
          linarith
        · rw [if_neg hsg] at hval
          rw [hval] at hc2
          exfalso
          linarith
      · rintro ⟨hfls, _⟩
        exact absurd hfls (by decide)
    · -- finite
      constructor
      · rintro ⟨h1, h2⟩
        refine ⟨rfl, v, rfl, by rw [hb]; exact h1, ?_⟩
        by_cases hsg : signF a = 1
        · rw [if_pos hsg] at hval
          have hp : (0 : Int) ≤ (posVal (magF a) : Int) := by positivity
          have hq : (0 : Int) < 2147483647 * 2 ^ 149 := by norm_num
          rw [hval]
          linarith
        · rw [if_neg hsg] at hval
          have hNat : posVal (magF a) < 2 ^ 180 := by
            have hInt : ((posVal (magF a) : Int)) < 2 ^ 180 := by
              rw [hval] at h2
              linarith
            exact_mod_cast hInt
          have hgap : ((posVal (magF a) : Int)) < 2147483647 * 2 ^ 149 := by
            exact_mod_cast posVal_gap hNat
          rw [hval]
          linarith
      · rintro ⟨_, w, hw, hw1, hw2⟩
        injection hw with hww
        subst hww
        constructor
        · rw [hb] at hw1
          exact hw1
        · linarith

/-- The claim C3: the float-to-int cast succeeds on a vector exactly when
every lane is a finite float whose value is strictly greater than the
int32 minimum and strictly less than the int32 maximum (NaN, infinities
and out-of-range values make the whole operation fail with no partial
result), while the int-to-float cast succeeds on every input. -/
theorem claimC3_numeric_cast_checks (l : List Nat) (li : List Int) :
    ((int32x4FromFloat32x4 l).isSome = true ↔
      ∀ a ∈ l, isFiniteF a = true ∧ ∃ v, fdec a = some v ∧
        -(2147483648 * 2 ^ 149) < v ∧ v < 2147483647 * 2 ^ 149) ∧
    (float32x4FromInt32x4 li).isSome = true := by
  constructor
  · unfold int32x4FromFloat32x4
    rw [isSome_mapChecked]
    constructor
    · intro h a ha
      have h2 := h a ha
      rw [← canCastF32_iff]
      by_contra hc
      rw [Bool.not_eq_true] at hc
      rw [hc] at h2
      simp at h2
    · intro h a ha
      rw [(canCastF32_iff a).mpr (h a ha)]
      rfl
  · unfold float32x4FromInt32x4
    rw [isSome_mapChecked]
    intro a _
    rfl

/-- Witness for C3: the float vector with lanes `1.0`, `-0.0`, `-2.0` and
`2147483520.0` (the largest float below the int32 maximum) passes every
lane check, and the int-to-float cast succeeds on extremal int32 lanes. -/
theorem claimC3_numeric_cast_checks_witness :
    (∀ a ∈ [0x3F800000, 0x80000000, 0xC0000000, 0x4EFFFFFF],
      isFiniteF a = true ∧ ∃ v, fdec a = some v ∧
        -(2147483648 * 2 ^ 149) < v ∧ v < 2147483647 * 2 ^ 149) ∧
    (float32x4FromInt32x4 [0, 1, -2147483648, 2147483647]).isSome = true :=
  ⟨(claimC3_numeric_cast_checks [0x3F800000, 0x80000000, 0xC0000000, 0x4EFFFFFF]
      [0, 1, -2147483648, 2147483647]).1.mp (by decide),
   (claimC3_numeric_cast_checks [0x3F800000, 0x80000000, 0xC0000000, 0x4EFFFFFF]
      [0, 1, -2147483648, 2147483647]).2⟩

/-! ### The seven vector kinds, the raw 128-bit value, and the
whole-vector equality predicates (Runtime_SimdSameValue, lines 152-169,
and Runtime_SimdSameValueZero, lines 172-189) -/

/-- The seven SIMD kinds; the map (type tag) of a Simd128Value. -/
inductive Kind where
  | float32x4
  | int32x4
  | bool32x4
  | int16x8
  | bool16x8
  | int8x16
  | bool8x16
deriving DecidableEq

/-- A Simd128Value, by kind.  Float and int lanes are carried as bit
patterns, boolean lanes as booleans. -/
inductive Simd128 where
  | float32x4 (l : List Nat)
  | int32x4 (l : List Nat)
  | bool32x4 (l : List Bool)
  | int16x8 (l : List Nat)
  | bool16x8 (l : List Bool)
  | int8x16 (l : List Nat)
  | bool8x16 (l : List Bool)

/-- The kind (map) of a vector. -/
def kindOf : Simd128 → Kind
  | .float32x4 _ => .float32x4
  | .int32x4 _ => .int32x4
  | .bool32x4 _ => .bool32x4
  | .int16x8 _ => .int16x8
  | .bool16x8 _ => .bool16x8
  | .int8x16 _ => .int8x16
  | .bool8x16 _ => .bool8x16

/-- Modelled from the spec: the storage layout of a boolean vector —
"boolean kinds store one logical bit per lane but occupy a lane-width
slot", so each boolean lane contributes its logical bit to the slot. -/
def boolBits (l : List Bool) : List Nat := l.map (fun b => if b then 1 else 0)

/-- The raw 128-bit pattern of a vector: its lanes as base `2 ^ w`
digits. -/
def bits128 : Simd128 → Nat
  | .float32x4 l => combineBits 32 l
  | .int32x4 l => combineBits 32 l
  | .bool32x4 l => combineBits 32 (boolBits l)
  | .int16x8 l => combineBits 16 l
  | .bool16x8 l => combineBits 16 (boolBits l)
  | .int8x16 l => combineBits 8 l
  | .bool8x16 l => combineBits 8 (boolBits l)

/-- Modelled from the spec: `Simd128Value::BitwiseEquals` (called by the
runtime but defined outside this file) — "true iff every underlying bit of
the 128-bit representation matches". -/
def BitwiseEquals (a b : Simd128) : Bool := bits128 a == bits128 b

/-- Modelled from the spec: `Float32x4::SameValue` per lane (defined
outside this file) — float SameValue semantics: "NaN equals NaN; +0 and
-0 are distinct". -/
def f32SameValue (a b : Nat) : Bool :=
  if isNaNF a && isNaNF b then true
  else if isZeroF a && isZeroF b then signF a == signF b
  else fltEq a b

/-- Modelled from the spec: `Float32x4::SameValueZero` per lane (defined
outside this file) — "identical to SameValue except +0 and -0 are treated
as equal". -/
def f32SameValueZero (a b : Nat) : Bool :=
  if isNaNF a && isNaNF b then true
  else if isZeroF a && isZeroF b then true
  else fltEq a b

/-- Lane-by-lane SameValue over two Float32x4 vectors. -/
def f32x4SameValue (la lb : List Nat) : Bool :=
  (la.zip lb).all fun p => f32SameValue p.1 p.2

/-- Lane-by-lane SameValueZero over two Float32x4 vectors. -/
def f32x4SameValueZero (la lb : List Nat) : Bool :=
  (la.zip lb).all fun p => f32SameValueZero p.1 p.2

/-- `Runtime_SimdSameValue` (lines 152-169): false unless the two maps
(kinds) agree; a Float32x4 pair compares lane-by-lane with SameValue,
every other kind falls back to BitwiseEquals. -/
def simdSameValue (a b : Simd128) : Bool :=
  if kindOf a = kindOf b then
    match a, b with
    | .float32x4 la, .float32x4 lb => f32x4SameValue la lb
    | _, _ => BitwiseEquals a b
  else false

/-- `Runtime_SimdSameValueZero` (lines 172-189): as `simdSameValue` but
with SameValueZero on Float32x4 lanes. -/
def simdSameValueZero (a b : Simd128) : Bool :=
  if kindOf a = kindOf b then
    match a, b with
    | .float32x4 la, .float32x4 lb => f32x4SameValueZero la lb
    | _, _ => BitwiseEquals a b
  else false

/-- The claim C1: the two predicates return false (and do not fail) on any
kind mismatch; on Float32x4 they compare lane-by-lane, with SameValue
making NaN equal to NaN but `+0` (pattern 0) distinct from `-0` (pattern
`2 ^ 31`), and SameValueZero additionally identifying the zeros; on every
non-Float32x4 kind both reduce to bitwise equality of the 128-bit
representation. -/
theorem claimC1_samevalue_predicates (a b : Simd128) (x y : Nat) :
    (kindOf a ≠ kindOf b →
      simdSameValue a b = false ∧ simdSameValueZero a b = false) ∧
    (∀ la lb,
      simdSameValue (.float32x4 la) (.float32x4 lb) = f32x4SameValue la lb ∧
      simdSameValueZero (.float32x4 la) (.float32x4 lb)
        = f32x4SameValueZero la lb) ∧
    (isNaNF x = true → isNaNF y = true →
      f32SameValue x y = true ∧ f32SameValueZero x y = true) ∧
    (f32SameValue 0 (2 ^ 31) = false ∧ f32SameValue (2 ^ 31) 0 = false ∧
      f32SameValueZero 0 (2 ^ 31) = true ∧
      f32SameValueZero (2 ^ 31) 0 = true ∧
      f32SameValue 0 0 = true ∧ f32SameValue (2 ^ 31) (2 ^ 31) = true) ∧
    (kindOf a = kindOf b → (∀ l, a ≠ .float32x4 l) →
      simdSameValue a b = BitwiseEquals a b ∧
      simdSameValueZero a b = BitwiseEquals a b) := by
  refine ⟨?_, ?_, ?_, by decide, ?_⟩
  · intro h
    unfold simdSameValue simdSameValueZero
    rw [if_neg h, if_neg h]
    exact ⟨rfl, rfl⟩
  · intro la lb
    exact ⟨rfl, rfl⟩
  · intro hx hy
    unfold f32SameValue f32SameValueZero
    rw [hx, hy]
    exact ⟨rfl, rfl⟩
  · intro hk hf
    cases a <;> cases b <;>
      first
        | exact absurd rfl (hf _)
        | exact ⟨rfl, rfl⟩
        | simp [kindOf] at hk

/-- Witness for C1: a kind mismatch yields false; two NaN lanes with
different payloads are SameValue-equal; an Int8x16 pair reduces to
bitwise equality. -/
theorem claimC1_samevalue_predicates_witness :
    (simdSameValue (.int32x4 [1, 2, 3, 4]) (.bool32x4 [true, false, true, false])
        = false ∧
      simdSameValueZero (.int32x4 [1, 2, 3, 4])
        (.bool32x4 [true, false, true, false]) = false) ∧
    (f32SameValue 0x7FC00000 0x7FC00001 = true ∧
      f32SameValueZero 0x7FC00000 0x7FC00001 = true) ∧
    (simdSameValue (.int16x8 [1, 2, 3, 4, 5, 6, 7, 8])
        (.int16x8 [1, 2, 3, 4, 5, 6, 7, 9])
        = BitwiseEquals (.int16x8 [1, 2, 3, 4, 5, 6, 7, 8])
            (.int16x8 [1, 2, 3, 4, 5, 6, 7, 9]) ∧
      simdSameValueZero (.int16x8 [1, 2, 3, 4, 5, 6, 7, 8])
        (.int16x8 [1, 2, 3, 4, 5, 6, 7, 9])
        = BitwiseEquals (.int16x8 [1, 2, 3, 4, 5, 6, 7, 8])
            (.int16x8 [1, 2, 3, 4, 5, 6, 7, 9])) :=
  ⟨(claimC1_samevalue_predicates (.int32x4 [1, 2, 3, 4])
      (.bool32x4 [true, false, true, false]) 0 0).1 (by decide),
   (claimC1_samevalue_predicates (.int32x4 [1, 2, 3, 4])
      (.bool32x4 [true, false, true, false]) 0x7FC00000 0x7FC00001).2.2.1
      (by decide) (by decide),
   (claimC1_samevalue_predicates (.int16x8 [1, 2, 3, 4, 5, 6, 7, 8])
      (.int16x8 [1, 2, 3, 4, 5, 6, 7, 9]) 0 0).2.2.2.2 rfl
      (fun l => by simp)⟩

/-! ### The abs inventory (SIMD_ABS_FUNCTION, lines 339-344, under
"Float-only functions", instantiated at line 389 for Float32x4 only) -/

/-- The kinds at which the runtime instantiates SIMD_ABS_FUNCTION: only
`SIMD_ABS_FUNCTION(Float32x4, float, 4)` appears (line 389); no integer
kind receives an Abs runtime function. -/
def absKinds : List Kind := [Kind.float32x4]

/-- The kinds at which SIMD_NEG_FUNCTION is instantiated
(SIMD_NUMERIC_TYPES, lines 540-544, applied at line 591): all four
numeric kinds. -/
def negKinds : List Kind :=
  [Kind.float32x4, Kind.int32x4, Kind.int16x8, Kind.int8x16]

/-- `std::abs` on a float clears the sign bit. -/
def fabsF (x : Nat) : Nat := magF x

/-- `Runtime_Float32x4Abs` (SIMD_ABS_FUNCTION at Float32x4): lane-wise
`std::abs`. -/
def float32x4Abs (l : List Nat) : List Nat := l.map fabsF

/-- Counterexample to C9: the claim says abs is provided for the integer
kinds, but SIMD_ABS_FUNCTION is instantiated for no integer kind. -/
theorem claimC9_counterexample :
    ¬(Kind.int32x4 ∈ absKinds ∨ Kind.int16x8 ∈ absKinds ∨
      Kind.int8x16 ∈ absKinds) := by
  decide

/-- The amended claim C9: the unary abs operation is provided only for the
float kind (neg, by contrast, covers all four numeric kinds), and the
float abs clears the sign bit of each lane while preserving the magnitude
bits; no integer abs exists, so no wraparound behavior at the integer
minimum arises. -/
theorem claimC9_abs_float_only (x : Nat) (l : List Nat) :
    absKinds = [Kind.float32x4] ∧
    (Kind.float32x4 ∈ negKinds ∧ Kind.int32x4 ∈ negKinds ∧
      Kind.int16x8 ∈ negKinds ∧ Kind.int8x16 ∈ negKinds) ∧
    float32x4Abs l = l.map fabsF ∧
    (signF (fabsF x) = 0 ∧ magF (fabsF x) = magF x) := by
  refine ⟨rfl, by decide, rfl, ?_, ?_⟩
  · unfold signF fabsF magF
    omega
  · unfold fabsF magF
    omega

end SimdSpec
